import Mathlib

/-!
Shallow embedding of the LigthScan memory scanner (Rust) in Lean 4, together
with proofs settling the frozen claims about its specification.

Modelling conventions used throughout:
* Machine integers are modelled by their unsigned bit patterns as `Nat`
  (with explicit `% 2^w` / range hypotheses where width matters); bytes are
  `Nat` values below 256.
* `f32` / `f64` payloads are modelled by their 32/64-bit patterns as `Nat`.
  IEEE-754 equality on bit patterns is implemented concretely
  (`f32BitsEq`, `f64BitsEq`); IEEE ordering and the lossy `as f64`
  promotions, whose numeric content no claim depends on, are abstracted
  into a `FloatModel` parameter that theorems quantify over.
* A Rust panic (out-of-bounds index) is modelled by the `PRes.panicked`
  outcome; fallible Rust `Option` / `Result` values become `Option` /
  `Except`.
* Remote process memory is a partial byte map `Mem := Nat → Option Nat`;
  `ReadProcessMemory` is all-or-nothing (the Rust wrapper rejects partial
  reads), which `readMem` reflects.
-/

/-- Outcome of running a piece of Rust code that may panic. -/
inductive PRes (α : Type) where
  | panicked : PRes α
  | ok : α → PRes α
  deriving DecidableEq, Repr

/-- Little-endian decoding of a byte list into an unsigned bit pattern
(`uN::from_le_bytes`). -/
def decodeLE : List Nat → Nat
  | [] => 0
  | b :: rest => b + 256 * decodeLE rest

/-- Little-endian encoding of the low `n` bytes of a value
(`uN::to_le_bytes`). -/
def encodeLE : Nat → Nat → List Nat
  | 0, _ => []
  | n + 1, v => v % 256 :: encodeLE n (v / 256)

/-- The value types of `src/types/value.rs` (`enum ValueType`). -/
inductive ValueType where
  | I8 | I16 | I32 | I64
  | U8 | U16 | U32 | U64
  | F32 | F64
  | ByteArray (size : Nat)
  deriving DecidableEq, Repr

/-- Byte size of a value type (`ValueType::size`). -/
def ValueType.size : ValueType → Nat
  | .I8 | .U8 => 1
  | .I16 | .U16 => 2
  | .I32 | .U32 | .F32 => 4
  | .I64 | .U64 | .F64 => 8
  | .ByteArray size => size

/-- Natural alignment of a value type (`ValueType::alignment`). -/
def ValueType.alignment : ValueType → Nat
  | .I8 | .U8 | .ByteArray _ => 1
  | .I16 | .U16 => 2
  | .I32 | .U32 | .F32 => 4
  | .I64 | .U64 | .F64 => 8

/-- The tagged scan values of `src/types/value.rs` (`enum ScanValue`).
Integer payloads are unsigned bit patterns; float payloads are IEEE-754
bit patterns. -/
inductive ScanValue where
  | I8 (v : Nat) | I16 (v : Nat) | I32 (v : Nat) | I64 (v : Nat)
  | U8 (v : Nat) | U16 (v : Nat) | U32 (v : Nat) | U64 (v : Nat)
  | F32 (bits : Nat) | F64 (bits : Nat)
  | ByteArray (v : List Nat)
  deriving DecidableEq, Repr

/-- Payloads lie within the bit width of their tag (true of every value the
Rust types can hold). -/
def ScanValue.wf : ScanValue → Prop
  | .I8 v | .U8 v => v < 2 ^ 8
  | .I16 v | .U16 v => v < 2 ^ 16
  | .I32 v | .U32 v | .F32 v => v < 2 ^ 32
  | .I64 v | .U64 v | .F64 v => v < 2 ^ 64
  | .ByteArray v => ∀ b ∈ v, b < 256

/-- Little-endian byte serialization (`ScanValue::to_bytes`). -/
def ScanValue.to_bytes : ScanValue → List Nat
  | .I8 v => [v]
  | .I16 v => encodeLE 2 v
  | .I32 v => encodeLE 4 v
  | .I64 v => encodeLE 8 v
  | .U8 v => [v]
  | .U16 v => encodeLE 2 v
  | .U32 v => encodeLE 4 v
  | .U64 v => encodeLE 8 v
  | .F32 bits => encodeLE 4 bits
  | .F64 bits => encodeLE 8 bits
  | .ByteArray v => v

/-- Deserialization (`ScanValue::from_bytes`).  Each multi-byte arm carries
the `bytes.len() >= k` guard of the source and otherwise falls through to
`None`; the `I8` and `U8` arms index `bytes[0]` without a guard, which in
Rust panics on an empty slice — modelled by `PRes.panicked`. -/
def ScanValue.from_bytes (bytes : List Nat) : ValueType → PRes (Option ScanValue)
  | .I8 =>
    match bytes with
    | [] => .panicked
    | b :: _ => .ok (some (.I8 b))
  | .I16 =>
    if 2 ≤ bytes.length then .ok (some (.I16 (decodeLE (bytes.take 2)))) else .ok none
  | .I32 =>
    if 4 ≤ bytes.length then .ok (some (.I32 (decodeLE (bytes.take 4)))) else .ok none
  | .I64 =>
    if 8 ≤ bytes.length then .ok (some (.I64 (decodeLE (bytes.take 8)))) else .ok none
  | .U8 =>
    match bytes with
    | [] => .panicked
    | b :: _ => .ok (some (.U8 b))
  | .U16 =>
    if 2 ≤ bytes.length then .ok (some (.U16 (decodeLE (bytes.take 2)))) else .ok none
  | .U32 =>
    if 4 ≤ bytes.length then .ok (some (.U32 (decodeLE (bytes.take 4)))) else .ok none
  | .U64 =>
    if 8 ≤ bytes.length then .ok (some (.U64 (decodeLE (bytes.take 8)))) else .ok none
  | .F32 =>
    if 4 ≤ bytes.length then .ok (some (.F32 (decodeLE (bytes.take 4)))) else .ok none
  | .F64 =>
    if 8 ≤ bytes.length then .ok (some (.F64 (decodeLE (bytes.take 8)))) else .ok none
  | .ByteArray size =>
    if size ≤ bytes.length then .ok (some (.ByteArray (bytes.take size))) else .ok none

/-- Tag of a scan value (`ScanValue::value_type`). -/
def ScanValue.value_type : ScanValue → ValueType
  | .I8 _ => .I8
  | .I16 _ => .I16
  | .I32 _ => .I32
  | .I64 _ => .I64
  | .U8 _ => .U8
  | .U16 _ => .U16
  | .U32 _ => .U32
  | .U64 _ => .U64
  | .F32 _ => .F32
  | .F64 _ => .F64
  | .ByteArray v => .ByteArray v.length

/-- NaN test on a 32-bit IEEE-754 pattern: exponent all ones, mantissa
nonzero. -/
def f32IsNaN (b : Nat) : Bool :=
  (b / 2 ^ 23) % 2 ^ 8 == 255 && b % 2 ^ 23 != 0

/-- Zero test on a 32-bit IEEE-754 pattern: all bits below the sign clear. -/
def f32IsZero (b : Nat) : Bool :=
  b % 2 ^ 31 == 0

/-- IEEE-754 equality of two `f32` values given as bit patterns: false if
either is NaN, true on identical patterns and on `+0.0 == -0.0`. -/
def f32BitsEq (a b : Nat) : Bool :=
  !f32IsNaN a && !f32IsNaN b && (a == b || (f32IsZero a && f32IsZero b))

/-- NaN test on a 64-bit IEEE-754 pattern. -/
def f64IsNaN (b : Nat) : Bool :=
  (b / 2 ^ 52) % 2 ^ 11 == 2047 && b % 2 ^ 52 != 0

/-- Zero test on a 64-bit IEEE-754 pattern. -/
def f64IsZero (b : Nat) : Bool :=
  b % 2 ^ 63 == 0

/-- IEEE-754 equality of two `f64` values given as bit patterns. -/
def f64BitsEq (a b : Nat) : Bool :=
  !f64IsNaN a && !f64IsNaN b && (a == b || (f64IsZero a && f64IsZero b))

/-- The `#[derive(PartialEq)]` equality of `ScanValue`: tags must match and
payloads compare with their own equality — which for `f32` / `f64` is IEEE
equality, not bit equality. -/
def scanValueEq (a b : ScanValue) : Bool :=
  match a, b with
  | .I8 x, .I8 y => x == y
  | .I16 x, .I16 y => x == y
  | .I32 x, .I32 y => x == y
  | .I64 x, .I64 y => x == y
  | .U8 x, .U8 y => x == y
  | .U16 x, .U16 y => x == y
  | .U32 x, .U32 y => x == y
  | .U64 x, .U64 y => x == y
  | .F32 x, .F32 y => f32BitsEq x y
  | .F64 x, .F64 y => f64BitsEq x y
  | .ByteArray x, .ByteArray y => x == y
  | _, _ => false

/-- The scan predicates of `src/types/value.rs` (`enum ScanType`); the
`Between` bounds are `f64` bit patterns. -/
inductive ScanType where
  | Exact
  | GreaterThan
  | LessThan
  | Between (lo hi : Nat)
  | Unknown
  | Increased
  | Decreased
  | Changed
  | Unchanged
  deriving DecidableEq, Repr

/-- Abstraction of the IEEE-754 double operations used by comparisons:
strict and non-strict ordering on `f64` bit patterns, and the lossy
`as f64` promotion of `ScanValue::as_f64`.  No claim depends on their
numeric content, so theorems quantify over this model. -/
structure FloatModel where
  lt : Nat → Nat → Bool
  le : Nat → Nat → Bool
  toF64 : ScanValue → Nat

/-- A trivial instantiation of `FloatModel` used to state closed
counterexamples about code paths that never consult it. -/
def trivFloatModel : FloatModel :=
  ⟨fun _ _ => false, fun _ _ => false, fun _ => 0⟩

/-- The predicate evaluation of `ScanValue::compare`: `Exact` is the derived
tagged equality; the ordering predicates promote both sides with `as_f64`
(`a > b` is IEEE `b < a`); `Between` is closed on both ends; every other
scan type yields `false` there. -/
def ScanValue.compare (F : FloatModel) (self other : ScanValue) : ScanType → Bool
  | .Exact => scanValueEq self other
  | .GreaterThan => F.lt (F.toF64 other) (F.toF64 self)
  | .LessThan => F.lt (F.toF64 self) (F.toF64 other)
  | .Between lo hi => F.le lo (F.toF64 self) && F.le (F.toF64 self) hi
  | _ => false

/-- Little-endian decode of the four bytes of `data` starting at `o`
(`i32::from_le_bytes` / `f32::from_le_bytes` on `data[o..o+4]`, as a bit
pattern); callers guard `o + 4 ≤ data.length`. -/
def decode4 (data : List Nat) (o : Nat) : Nat :=
  decodeLE ((data.drop o).take 4)

/-- The scalar scan loop shared by `scalar_scan_i32` / `scalar_scan_f32`
and by the scalar tails of the AVX2 kernels (`src/scanner/simd.rs`):
stride by `alignment` from `start`, and at every aligned offset with four
bytes available test the decoded value with `pred`.  The loop is written
with explicit fuel; `alignment = 0` (on which Rust would panic with a
division by zero) is excluded by the `1 ≤ alignment` hypotheses of every
theorem, under which the fuel used by callers is sufficient. -/
def scanLoop (data : List Nat) (pred : Nat → Bool) (al : Nat) : Nat → Nat → List Nat
  | _, 0 => []
  | offset, fuel + 1 =>
    if offset + 4 ≤ data.length then
      (if offset % al == 0 then
        (if pred (decode4 data offset) then [offset] else [])
      else []) ++ scanLoop data pred al (offset + al) fuel
    else []

/-- Scalar fallback for i32 scanning (`scalar_scan_i32`). -/
def scalar_scan_i32 (data : List Nat) (target al : Nat) : List Nat :=
  scanLoop data (fun v => v == target) al 0 (data.length + 1)

/-- Scalar fallback for f32 scanning (`scalar_scan_f32`); the comparison
`value == target` is IEEE `f32` equality on bit patterns. -/
def scalar_scan_f32 (data : List Nat) (target al : Nat) : List Nat :=
  scanLoop data (fun v => f32BitsEq v target) al 0 (data.length + 1)

/-- The vectorized portion of the AVX2 kernels: for each 32-byte chunk the
eight-lane packed compare marks the lanes equal to the broadcast target
(`_mm256_cmpeq_epi32` / `_mm256_cmp_ps` + movemask, modelled by testing
`pred` on each lane value directly), and each marked lane whose byte
offset is aligned is recorded. -/
def simdVectorPart (data : List Nat) (pred : Nat → Bool) (al chunks : Nat) : List Nat :=
  (List.range chunks).flatMap (fun c =>
    (List.range 8).filterMap (fun i =>
      if pred (decode4 data (c * 32 + i * 4)) then
        if (c * 32 + i * 4) % al == 0 then some (c * 32 + i * 4) else none
      else none))

/-- Shared shape of `simd_scan_i32_avx2` / `simd_scan_f32_avx2`: buffers
shorter than one vector fall back to the scalar loop; otherwise the
vectorized part covers `len / 32` full chunks and the scalar tail handles
the remaining bytes starting at `(len / 32) * 32`. -/
def simdScan (data : List Nat) (pred : Nat → Bool) (al : Nat) : List Nat :=
  if data.length < 32 then scanLoop data pred al 0 (data.length + 1)
  else
    simdVectorPart data pred al (data.length / 32) ++
      scanLoop data pred al (data.length / 32 * 32) (data.length + 1)

/-- AVX2 kernel for i32 (`simd_scan_i32_avx2`). -/
def simd_scan_i32_avx2 (data : List Nat) (target al : Nat) : List Nat :=
  simdScan data (fun v => v == target) al

/-- AVX2 kernel for f32 (`simd_scan_f32_avx2`); packed compare with
`_CMP_EQ_OQ` is IEEE equality. -/
def simd_scan_f32_avx2 (data : List Nat) (target al : Nat) : List Nat :=
  simdScan data (fun v => f32BitsEq v target) al

/-- Auto-dispatching scan for i32 (`scan_i32`); the runtime AVX2 detection
is the boolean parameter. -/
def scan_i32 (avx2 : Bool) (data : List Nat) (target al : Nat) : List Nat :=
  if avx2 then simd_scan_i32_avx2 data target al else scalar_scan_i32 data target al

/-- Auto-dispatching scan for f32 (`scan_f32`). -/
def scan_f32 (avx2 : Bool) (data : List Nat) (target al : Nat) : List Nat :=
  if avx2 then simd_scan_f32_avx2 data target al else scalar_scan_f32 data target al

/-- The contract claimed for the kernels, written from the spec: the
aligned byte offsets with four bytes available whose decoded value
satisfies the predicate, in ascending order. -/
def alignedMatchOffsets (data : List Nat) (pred : Nat → Bool) (al : Nat) : List Nat :=
  (List.range data.length).filter
    (fun o => o % al == 0 && decide (o + 4 ≤ data.length) && pred (decode4 data o))

/-- Remote process memory as a partial byte map. -/
def Mem : Type := Nat → Option Nat

/-- Wrapper of `ReadProcessMemory` (`read_process_memory`): reads exactly `n`
bytes starting at `addr`, failing (all-or-nothing, partial reads are
rejected) if any byte is unreadable. -/
def readMem (μ : Mem) (addr n : Nat) : Option (List Nat) :=
  (List.range n).mapM (fun i => μ (addr + i))

/-- A committed-memory region as reported by the platform layer
(`MemoryRegion` in `src/platform/windows.rs`). -/
structure MemoryRegion where
  base_address : Nat
  size : Nat
  protection : Nat
  state : Nat
  is_readable : Bool
  is_writable : Bool
  is_executable : Bool
  deriving DecidableEq, Repr

/-- A scan candidate (`ScanResult` in `src/types/scan_result.rs`). -/
structure ScanResult where
  address : Nat
  previous_value : List Nat
  current_value : Option (List Nat)
  deriving DecidableEq, Repr

/-- Constructor `ScanResult::new`: both value slots hold the first bytes. -/
def ScanResult.new (address : Nat) (value : List Nat) : ScanResult :=
  { address := address, previous_value := value, current_value := some value }

/-- Accessor `ScanResult::get_current_value`: the current bytes, falling back to the
previous bytes when current is absent. -/
def ScanResult.get_current_value (r : ScanResult) : List Nat :=
  r.current_value.getD r.previous_value

/-- Update `ScanResult::update_value`: shift current into previous (falling back
to previous when current is absent) and install the fresh bytes. -/
def ScanResult.update_value (r : ScanResult) (new_value : List Nat) : ScanResult :=
  { address := r.address
    previous_value := r.current_value.getD r.previous_value
    current_value := some new_value }

/-- The scan-results set (`ScanResults`): ordered candidates, the shared
value type, and the scan counter. -/
structure ScanResults where
  results : List ScanResult
  value_type : ValueType
  scan_count : Nat
  deriving DecidableEq, Repr

/-- Constructor `ScanResults::new`. -/
def ScanResults.new (value_type : ValueType) : ScanResults :=
  { results := [], value_type := value_type, scan_count := 0 }

/-- Operation `ScanResults::clear`: drop all results and zero the counter. -/
def ScanResults.clear (s : ScanResults) : ScanResults :=
  { s with results := [], scan_count := 0 }

/-- Operation `ScanResults::increment_scan_count`. -/
def ScanResults.increment_scan_count (s : ScanResults) : ScanResults :=
  { s with scan_count := s.scan_count + 1 }

/-- Scan options (`ScanOptions`). -/
structure ScanOptions where
  value_type : ValueType
  alignment : Nat
  writable_only : Bool
  readable_only : Bool
  executable_only : Bool
  deriving DecidableEq, Repr

/-- Operation `MemoryScanner::filter_regions`: keep regions passing the three
optional protection filters. -/
def filter_regions (regions : List MemoryRegion)
    (readable_only writable_only executable_only : Bool) : List MemoryRegion :=
  regions.filter (fun r =>
    (!readable_only || r.is_readable) && (!writable_only || r.is_writable) &&
      (!executable_only || r.is_executable))

/-- The 1 MiB read granularity (`CHUNK_SIZE`). -/
def CHUNK_SIZE : Nat := 1024 * 1024

/-- The chunked loop of `MemoryScanner::read_region` for regions larger
than one chunk: a failed chunk read is replaced by zero padding and the
walk continues.  Fuel-driven; each step advances by at least one byte, so
`size` fuel suffices. -/
def readRegionChunks (μ : Mem) (base size : Nat) : Nat → Nat → List Nat
  | _, 0 => []
  | offset, fuel + 1 =>
    if offset < size then
      (match readMem μ (base + offset) (min (size - offset) CHUNK_SIZE) with
        | some chunk => chunk
        | none => List.replicate (min (size - offset) CHUNK_SIZE) 0) ++
        readRegionChunks μ base size (offset + min (size - offset) CHUNK_SIZE) fuel
    else []

/-- Operation `MemoryScanner::read_region`: small regions are read whole (and the
read failure propagates); larger ones go through the zero-padding chunk
loop, which always succeeds. -/
def read_region (μ : Mem) (r : MemoryRegion) : Option (List Nat) :=
  if r.size ≤ CHUNK_SIZE then readMem μ r.base_address r.size
  else some (readRegionChunks μ r.base_address r.size 0 r.size)

/-- Total decoder used on byte slices whose length equals the type's size
(where `from_bytes` is guaranteed to succeed); spec-side counterpart of
`from_bytes`. -/
def decodeValue (bytes : List Nat) : ValueType → ScanValue
  | .I8 => .I8 (decodeLE (bytes.take 1))
  | .I16 => .I16 (decodeLE (bytes.take 2))
  | .I32 => .I32 (decodeLE (bytes.take 4))
  | .I64 => .I64 (decodeLE (bytes.take 8))
  | .U8 => .U8 (decodeLE (bytes.take 1))
  | .U16 => .U16 (decodeLE (bytes.take 2))
  | .U32 => .U32 (decodeLE (bytes.take 4))
  | .U64 => .U64 (decodeLE (bytes.take 8))
  | .F32 => .F32 (decodeLE (bytes.take 4))
  | .F64 => .F64 (decodeLE (bytes.take 8))
  | .ByteArray size => .ByteArray (bytes.take size)

/-- The predicate evaluation of `rescan_address` (the `matches` match of
the source): value predicates compare the fresh value against the
caller's reference, history predicates compare fresh against stored. -/
def nextScanPred (F : FloatModel) (value current_value previous_value : ScanValue) :
    ScanType → Bool
  | .Exact => current_value.compare F value .Exact
  | .GreaterThan => current_value.compare F value .GreaterThan
  | .LessThan => current_value.compare F value .LessThan
  | .Between lo hi => current_value.compare F value (.Between lo hi)
  | .Increased => F.lt (F.toF64 previous_value) (F.toF64 current_value)
  | .Decreased => F.lt (F.toF64 current_value) (F.toF64 previous_value)
  | .Changed => !scanValueEq current_value previous_value
  | .Unchanged => scanValueEq current_value previous_value
  | .Unknown => true

/-- Operation `rescan_address`: re-read `size` fresh bytes at the candidate's address
(dropping the candidate when the read fails), parse fresh and stored
bytes (the source's `?` on a failed parse also drops the candidate),
evaluate the predicate, and on success shift current into previous and
install the fresh bytes. -/
def rescan_address (μ : Mem) (F : FloatModel) (previous : ScanResult) (value : ScanValue)
    (scan_type : ScanType) (value_type : ValueType) : PRes (Option ScanResult) :=
  match readMem μ previous.address value_type.size with
  | none => .ok none
  | some current_bytes =>
    match ScanValue.from_bytes current_bytes value_type with
    | .panicked => .panicked
    | .ok none => .ok none
    | .ok (some current_value) =>
      match ScanValue.from_bytes previous.get_current_value value_type with
      | .panicked => .panicked
      | .ok none => .ok none
      | .ok (some previous_value) =>
        if nextScanPred F value current_value previous_value scan_type then
          .ok (some (previous.update_value current_bytes))
        else
          .ok none

/-- Model of `Iterator::filter_map` collecting into a `Vec`, in the panic monad. -/
def presFilterMap (f : α → PRes (Option β)) : List α → PRes (List β)
  | [] => .ok []
  | x :: xs =>
    match f x with
    | .panicked => .panicked
    | .ok o =>
      match presFilterMap f xs with
      | .panicked => .panicked
      | .ok rest => .ok (match o with | some b => b :: rest | none => rest)

/-- Operation `Scanner::next_scan`: an empty result set returns 0 immediately
(without touching the counter); otherwise every candidate is re-scanned,
the survivors replace the set in order, and the counter is incremented. -/
def Scanner.next_scan (μ : Mem) (F : FloatModel) (st : ScanResults) (value : ScanValue)
    (scan_type : ScanType) : PRes (ScanResults × Nat) :=
  if st.results.isEmpty then .ok (st, 0)
  else
    match presFilterMap
        (fun r => rescan_address μ F r value scan_type st.value_type) st.results with
    | .panicked => .panicked
    | .ok filtered =>
      .ok (ScanResults.increment_scan_count { st with results := filtered },
        filtered.length)

/-- Operation `Scanner::reset`. -/
def Scanner.reset (st : ScanResults) : ScanResults :=
  st.clear

/-- The per-region scan loop of `scan_region_first`: stride by `alignment`
from offset 0; at each in-bounds offset whose absolute address is aligned,
parse the chunk and test the predicate (`Unknown` records everything). -/
def scanRegionLoop (F : FloatModel) (base : Nat) (data : List Nat) (value : ScanValue)
    (scan_type : ScanType) (al : Nat) (vt : ValueType) : Nat → Nat → PRes (List ScanResult)
  | _, 0 => .ok []
  | offset, fuel + 1 =>
    if offset + vt.size ≤ data.length then
      if (base + offset) % al == 0 then
        match ScanValue.from_bytes ((data.drop offset).take vt.size) vt with
        | .panicked => .panicked
        | .ok (some found_value) =>
          match scanRegionLoop F base data value scan_type al vt (offset + al) fuel with
          | .panicked => .panicked
          | .ok rest =>
            .ok ((if (match scan_type with
                      | .Unknown => true
                      | _ => found_value.compare F value scan_type) then
                    [ScanResult.new (base + offset) ((data.drop offset).take vt.size)]
                  else []) ++ rest)
        | .ok none => scanRegionLoop F base data value scan_type al vt (offset + al) fuel
      else scanRegionLoop F base data value scan_type al vt (offset + al) fuel
    else .ok []

/-- Operation `scan_region_first`: read the whole region (a failed read contributes
zero results) and run the scan loop over the buffer. -/
def scan_region_first (μ : Mem) (F : FloatModel) (region : MemoryRegion)
    (value : ScanValue) (scan_type : ScanType) (options : ScanOptions) :
    PRes (List ScanResult) :=
  match read_region μ region with
  | none => .ok []
  | some data =>
    scanRegionLoop F region.base_address data value scan_type options.alignment
      options.value_type 0 (data.length + 1)

/-- Sequential accumulation of the per-region result vectors, in the panic
monad (the `for region in &regions \x7b results.extend(..) \x7d` loop). -/
def presAppendMap (f : α → PRes (List β)) : List α → PRes (List β)
  | [] => .ok []
  | x :: xs =>
    match f x with
    | .panicked => .panicked
    | .ok l =>
      match presAppendMap f xs with
      | .panicked => .panicked
      | .ok rest => .ok (l ++ rest)

/-- Operation `Scanner::first_scan`: the previous result set (`_st`) is discarded and
replaced by a fresh one keyed to the options' value type; regions are
filtered, each contributes its results in order, and the counter is
incremented (from 0, so it ends at 1). -/
def Scanner.first_scan (μ : Mem) (F : FloatModel) (_st : ScanResults) (value : ScanValue)
    (scan_type : ScanType) (options : ScanOptions) (regions : List MemoryRegion) :
    PRes (ScanResults × Nat) :=
  match presAppendMap
      (fun region => scan_region_first μ F region value scan_type options)
      (filter_regions regions options.readable_only options.writable_only
        options.executable_only) with
  | .panicked => .panicked
  | .ok allResults =>
    .ok (ScanResults.increment_scan_count
      { results := allResults, value_type := options.value_type, scan_count := 0 },
      allResults.length)

/-- Spec-side description of what `next_scan` does to one candidate: drop
it when the fresh read fails or the predicate fails, otherwise keep it
with previous set to the old current bytes and current set to the fresh
bytes. -/
def survivorStep (μ : Mem) (F : FloatModel) (vt : ValueType) (value : ScanValue)
    (scan_type : ScanType) (r : ScanResult) : Option ScanResult :=
  match readMem μ r.address vt.size with
  | none => none
  | some bs =>
    if nextScanPred F value (decodeValue bs vt) (decodeValue r.get_current_value vt)
        scan_type then
      some { address := r.address, previous_value := r.get_current_value,
             current_value := some bs }
    else none

/-- The `MEM_COMMIT` state constant (0x1000). -/
def MEM_COMMIT : Nat := 4096

/-- A byte pattern with wildcard mask (`Pattern` in
`src/engine/unreal/scanner.rs`); `mask` entries are true where a byte must
match.  `Pattern::from_string` always builds `bytes` and `mask` of equal
length, which theorems carry as a hypothesis. -/
structure Pattern where
  bytes : List Nat
  mask : List Bool
  deriving DecidableEq, Repr

/-- Accessor `Pattern::len`. -/
def Pattern.len (p : Pattern) : Nat :=
  p.bytes.length

/-- Operation `Pattern::matches`: false when fewer bytes than the pattern remain;
otherwise every non-wildcard position must hold the pattern byte. -/
def Pattern.matches (p : Pattern) (data : List Nat) : Bool :=
  if data.length < p.bytes.length then false
  else
    (List.range p.bytes.length).all
      (fun i => !(p.mask.getD i false && !(data.getD i 0 == p.bytes.getD i 0)))

/-- A pattern-scan hit (the unreal scanner's own `ScanResult`, renamed to
avoid clashing with the scanner engine's result type). -/
structure PatternScanResult where
  address : Nat
  offset : Nat
  deriving DecidableEq, Repr

/-- Operation `scan_pattern`: over the queried regions, keep only committed readable
regions whose base lies inside the module, read each whole (skipping it on
read failure), and record every starting offset in
`0 .. len - pattern_len` (exclusive) at which the pattern matches. -/
def scan_pattern (μ : Mem) (regions : List MemoryRegion) (p : Pattern)
    (module_base module_size : Nat) : List PatternScanResult :=
  regions.flatMap (fun region =>
    if region.base_address < module_base ∨
        module_base + module_size ≤ region.base_address ∨
        region.state ≠ MEM_COMMIT ∨ region.is_readable = false then []
    else
      match readMem μ region.base_address region.size with
      | none => []
      | some data =>
        (List.range (data.length - p.len)).filterMap (fun i =>
          if p.matches (data.drop i) then
            some ⟨region.base_address + i, i⟩
          else none))

/-- Engine error kinds (`EngineError` in `src/engine/error.rs`); the
diagnostic string payloads are elided. -/
inductive EngineError where
  | classNotFound
  | methodNotFound
  | fieldNotFound
  | instanceNotFound
  | invocationFailed
  | typeMismatch
  | memoryError
  | notInitialized
  | initializationFailed
  | unsupportedOperation
  | invalidArgument
  | ioError
  | platformError
  deriving DecidableEq, Repr

/-- Class handle (`ClassHandle(pub usize)`). -/
structure ClassHandle where
  val : Nat
  deriving DecidableEq, Repr

/-- Method handle. -/
structure MethodHandle where
  val : Nat
  deriving DecidableEq, Repr

/-- Field handle. -/
structure FieldHandle where
  val : Nat
  deriving DecidableEq, Repr

/-- Instance handle. -/
structure InstanceHandle where
  val : Nat
  deriving DecidableEq, Repr

/-- Primitive field types (`PrimitiveType` in `src/engine/types.rs`). -/
inductive PrimitiveType where
  | Bool | I8 | I16 | I32 | I64 | U8 | U16 | U32 | U64 | F32 | F64
  deriving DecidableEq, Repr

/-- Size table `PrimitiveType::size`. -/
def PrimitiveType.size : PrimitiveType → Nat
  | .Bool | .I8 | .U8 => 1
  | .I16 | .U16 => 2
  | .I32 | .U32 | .F32 => 4
  | .I64 | .U64 | .F64 => 8

mutual

/-- Kind of a field type (`TypeKind`). -/
inductive TypeKind where
  | Primitive (p : PrimitiveType)
  | Class (c : ClassHandle)
  | Struct (c : ClassHandle)
  | Array (t : TypeInfo)
  | Pointer (t : TypeInfo)
  | Unknown

/-- Field type information (`TypeInfo`). -/
inductive TypeInfo where
  | mk (name : String) (size : Nat) (kind : TypeKind)

end

/-- Projection of `TypeInfo.size`. -/
def TypeInfo.size : TypeInfo → Nat
  | .mk _ s _ => s

/-- Projection of `TypeInfo.kind`. -/
def TypeInfo.kind : TypeInfo → TypeKind
  | .mk _ _ k => k

/-- Engine-independent values (`Value` in `src/engine/types.rs`); integer
and float payloads are bit patterns, `Struct` holds raw bytes. -/
inductive Value where
  | Null
  | Bool (v : Bool)
  | I8 (v : Nat) | I16 (v : Nat) | I32 (v : Nat) | I64 (v : Nat)
  | U8 (v : Nat) | U16 (v : Nat) | U32 (v : Nat) | U64 (v : Nat)
  | F32 (bits : Nat) | F64 (bits : Nat)
  | String (s : String)
  | Object (h : InstanceHandle)
  | Array (vs : List Value)
  | Struct (bytes : List Nat)

/-- Unreal Engine versions (`UEVersion`). -/
inductive UEVersion where
  | UE4_20 | UE4_21 | UE4_22 | UE4_23 | UE4_24 | UE4_25 | UE4_26 | UE4_27
  | UE5_0 | UE5_1 | UE5_2 | UE5_3 | UE5_4 | Unknown
  deriving DecidableEq, Repr

/-- The Unreal backend state (`UnrealEngine` in `src/engine/unreal/mod.rs`);
the class/method caches, which none of the modelled operations touch, are
omitted. -/
structure UnrealEngine where
  process_handle : Nat
  process_id : Nat
  module_base : Nat
  module_size : Nat
  gnames_ptr : Nat
  gnames : Nat
  gobjects_ptr : Nat
  gobjects : Nat
  process_event : Nat
  version : UEVersion
  initialized : Bool
  deriving DecidableEq, Repr

/-- Accessor `UnrealEngine::is_initialized`. -/
def UnrealEngine.is_initialized (e : UnrealEngine) : Bool :=
  e.initialized

/-- Class information (`ClassInfo`). -/
structure ClassInfo where
  name : String
  handle : ClassHandle
  parent : Option ClassHandle
  size : Nat

/-- Parameter information (`ParamInfo`). -/
structure ParamInfo where
  name : String
  type_info : TypeInfo

/-- Method information (`MethodInfo`). -/
structure MethodInfo where
  name : String
  handle : MethodHandle
  params : List ParamInfo
  return_type : Option TypeInfo
  is_static : Bool

/-- Field information (`FieldInfo`). -/
structure FieldInfo where
  name : String
  handle : FieldHandle
  offset : Nat
  type_info : TypeInfo

/-- Facade `find_class`: the only class operation guarded by the
initialization check; on success the raw address from the lookup
implementation is wrapped in a handle.  The lookup implementation (a
remote object-graph walk) is abstracted as a parameter. -/
def UnrealEngine.find_class (impl : String → Except EngineError Nat) (e : UnrealEngine)
    (name : String) : Except EngineError ClassHandle :=
  if e.initialized = false then .error .notInitialized
  else (impl name).map ClassHandle.mk

/-- Facade `get_class_info`: unguarded delegation to the implementation. -/
def UnrealEngine.get_class_info (impl : Nat → Except EngineError ClassInfo)
    (e : UnrealEngine) (class_h : ClassHandle) : Except EngineError ClassInfo :=
  impl class_h.val

/-- Facade `enumerate_classes`: unguarded delegation. -/
def UnrealEngine.enumerate_classes (impl : Unit → Except EngineError (List ClassInfo))
    (e : UnrealEngine) : Except EngineError (List ClassInfo) :=
  impl ()

/-- Facade `find_method`: unguarded delegation, wrapping the address. -/
def UnrealEngine.find_method (impl : Nat → String → Except EngineError Nat)
    (e : UnrealEngine) (class_h : ClassHandle) (name : String) :
    Except EngineError MethodHandle :=
  (impl class_h.val name).map MethodHandle.mk

/-- Facade `get_method_info`: unguarded delegation. -/
def UnrealEngine.get_method_info (impl : Nat → Except EngineError MethodInfo)
    (e : UnrealEngine) (method : MethodHandle) : Except EngineError MethodInfo :=
  impl method.val

/-- Facade `enumerate_methods`: unguarded delegation. -/
def UnrealEngine.enumerate_methods (impl : Nat → Except EngineError (List MethodInfo))
    (e : UnrealEngine) (class_h : ClassHandle) : Except EngineError (List MethodInfo) :=
  impl class_h.val

/-- Facade `find_field`: unguarded delegation, wrapping the address. -/
def UnrealEngine.find_field (impl : Nat → String → Except EngineError Nat)
    (e : UnrealEngine) (class_h : ClassHandle) (name : String) :
    Except EngineError FieldHandle :=
  (impl class_h.val name).map FieldHandle.mk

/-- Facade `get_field_info`: unguarded delegation. -/
def UnrealEngine.get_field_info (impl : Nat → Except EngineError FieldInfo)
    (e : UnrealEngine) (field : FieldHandle) : Except EngineError FieldInfo :=
  impl field.val

/-- Facade `enumerate_fields`: unguarded delegation. -/
def UnrealEngine.enumerate_fields (impl : Nat → Except EngineError (List FieldInfo))
    (e : UnrealEngine) (class_h : ClassHandle) : Except EngineError (List FieldInfo) :=
  impl class_h.val

/-- Facade `get_instances`: a stub returning an empty vector regardless of
state (the object-graph walk is a TODO in the source). -/
def UnrealEngine.get_instances (e : UnrealEngine) (_class_h : ClassHandle) :
    Except EngineError (List InstanceHandle) :=
  .ok []

/-- Facade `get_instance_class`: a stub failing with
unsupported-operation regardless of state. -/
def UnrealEngine.get_instance_class (e : UnrealEngine) (_inst : InstanceHandle) :
    Except EngineError ClassHandle :=
  .error .unsupportedOperation

/-- Facade `invoke`: guarded by the initialization check; a missing
instance fails with invocation-failed; otherwise delegates to the
invocation implementation. -/

def UnrealEngine.invoke (impl : Nat → Nat → List Value → Except EngineError Value)
    (e : UnrealEngine) (obj : Option InstanceHandle) (method : MethodHandle)
    (args : List Value) : Except EngineError Value :=
  if e.initialized = false then .error .notInitialized
  else
    match obj with
    | none => .error .invocationFailed
    | some inst => impl inst.val method.val args

/-- Facade `write_field`: unguarded delegation. -/
def UnrealEngine.write_field (impl : Nat → Nat → Value → Except EngineError Unit)
    (e : UnrealEngine) (inst : InstanceHandle) (field : FieldHandle) (value : Value) :
    Except EngineError Unit :=
  impl inst.val field.val value

/-- Operation `read_field_impl`: for a primitive field kind read `size(kind)` bytes
at instance + offset (a failed read surfaces as a platform error through
`?`) and decode little-endian; non-primitive kinds and primitive kinds
without a dedicated arm come back as raw struct bytes. -/
def UnrealEngine.read_field_impl (e : UnrealEngine) (μ : Mem)
    (instance_addr field_offset : Nat) (field_type : TypeInfo) :
    Except EngineError Value :=
  match field_type.kind with
  | .Primitive prim =>
    match readMem μ (instance_addr + field_offset) prim.size with
    | none => .error .platformError
    | some data =>
      match prim with
      | .Bool => .ok (.Bool (data.getD 0 0 != 0))
      | .I32 => .ok (.I32 (decodeLE (data.take 4)))
      | .I64 => .ok (.I64 (decodeLE (data.take 8)))
      | .F32 => .ok (.F32 (decodeLE (data.take 4)))
      | .F64 => .ok (.F64 (decodeLE (data.take 8)))
      | _ => .ok (.Struct data)
  | _ =>
    match readMem μ (instance_addr + field_offset) field_type.size with
    | none => .error .platformError
    | some data => .ok (.Struct data)

/-- Facade `read_field`: the handle is used directly as a byte offset and
the field type is hard-coded to a 4-byte primitive `I32`, whatever the
actual field is. -/
def UnrealEngine.read_field (e : UnrealEngine) (μ : Mem) (inst : InstanceHandle)
    (field : FieldHandle) : Except EngineError Value :=
  e.read_field_impl μ inst.val field.val
    (TypeInfo.mk ("unknown") 4 (.Primitive .I32))

/-- Outcomes of the Windows calls made by `invoke_method_impl`: the two
`VirtualAllocEx` calls (`none` models a null return), the
`write_process_memory` call, and `CreateRemoteThread`. -/
structure InvokeEnv where
  params_alloc : Option Nat
  shellcode_alloc : Option Nat
  write_ok : Bool
  thread_ok : Bool
  deriving DecidableEq, Repr

/-- Emitter `generate_process_event_shellcode`: the fixed x86-64 thunk, always
returned successfully. -/
def UnrealEngine.generate_process_event_shellcode (e : UnrealEngine)
    (inst func params : Nat) : Except EngineError (List Nat) :=
  .ok ([0x48, 0x83, 0xEC, 0x28] ++
    ([0x48, 0xB9] ++ encodeLE 8 inst) ++
    ([0x48, 0xBA] ++ encodeLE 8 func) ++
    ([0x49, 0xB8] ++ encodeLE 8 params) ++
    ([0x48, 0xB8] ++ encodeLE 8 e.process_event) ++
    [0xFF, 0xD0] ++
    [0x48, 0x83, 0xC4, 0x28] ++
    [0xC3])

/-- Operation `invoke_method_impl`, instrumented with the remote allocations made
and released on the path taken: allocate the parameter buffer (null →
fail, nothing to release), generate the shellcode (`?`), allocate the
shellcode buffer (null → release the parameter buffer and fail), write
the shellcode (a failed write propagates through `?` WITHOUT releasing
either allocation), create the remote thread, wait, and release both
allocations on the success and thread-failure paths. -/
def UnrealEngine.invoke_method_impl (e : UnrealEngine) (env : InvokeEnv)
    (instance_addr method_addr : Nat) (_args : List Value) :
    Except EngineError Value × List Nat × List Nat :=
  match env.params_alloc with
  | none => (.error .invocationFailed, [], [])
  | some params_addr =>
    match e.generate_process_event_shellcode instance_addr method_addr params_addr with
    | .error err => (.error err, [params_addr], [])
    | .ok _shellcode =>
      match env.shellcode_alloc with
      | none => (.error .invocationFailed, [params_addr], [params_addr])
      | some shellcode_addr =>
        if env.write_ok = false then
          (.error .platformError, [params_addr, shellcode_addr], [])
        else if env.thread_ok then
          (.ok .Null, [params_addr, shellcode_addr], [params_addr, shellcode_addr])
        else
          (.error .invocationFailed, [params_addr, shellcode_addr],
            [params_addr, shellcode_addr])

/-- Two values below `256 ^ n` have equal little-endian encodings exactly
when they are equal. -/
theorem encodeLE_eq_iff (n : Nat) :
    ∀ v w : Nat, v < 256 ^ n → w < 256 ^ n → (encodeLE n v = encodeLE n w ↔ v = w) := by
  induction n with
  | zero =>
    intro v w hv hw
    simp only [Nat.pow_zero, Nat.lt_one_iff] at hv hw
    simp [encodeLE, hv, hw]
  | succ n ih =>
    intro v w hv hw
    have hv2 : v / 256 < 256 ^ n := by
      rw [Nat.div_lt_iff_lt_mul (by norm_num)]
      calc v < 256 ^ (n + 1) := hv
        _ = 256 ^ n * 256 := by ring
    have hw2 : w / 256 < 256 ^ n := by
      rw [Nat.div_lt_iff_lt_mul (by norm_num)]
      calc w < 256 ^ (n + 1) := hw
        _ = 256 ^ n * 256 := by ring
    simp only [encodeLE, List.cons.injEq, ih _ _ hv2 hw2]
    constructor
    · rintro ⟨h1, h2⟩
      omega
    · rintro rfl
      exact ⟨rfl, rfl⟩

/-- C1: `ScanValue::from_bytes` panics on an empty slice for the one-byte
types `I8` and `U8` (the unguarded `bytes[0]` index), instead of returning
`None` as it does for every other undersized slice — shown here for `I16`
on slices of length 0 and 1. -/
theorem from_bytes_empty_slice_behavior :
    ScanValue.from_bytes [] .I8 = .panicked ∧
    ScanValue.from_bytes [] .U8 = .panicked ∧
    ScanValue.from_bytes [] .I16 = .ok none ∧
    ScanValue.from_bytes [7] .I16 = .ok none := by
  refine ⟨rfl, rfl, by decide, by decide⟩

/-- C6 (counterexample): `+0.0` and `-0.0` have different little-endian
byte encodings, yet `compare _ _ Exact` holds between them, because the
derived equality compares `f32` payloads with IEEE equality rather than
bit-exactly. -/
theorem exact_compare_not_bit_exact :
    ScanValue.compare trivFloatModel (.F32 0) (.F32 (2 ^ 31)) .Exact = true ∧
    ScanValue.to_bytes (.F32 0) ≠ ScanValue.to_bytes (.F32 (2 ^ 31)) := by
  decide

/-- C6 (amended): for two scan values of the same type, `compare a b Exact`
coincides with little-endian byte-encoding equality whenever the type is
not a float type; for `F32` (resp. `F64`) payloads it is instead IEEE
equality of the bit patterns, which differs from byte equality exactly at
`+0.0 = -0.0` and at NaN. -/
theorem exact_compare_characterization (F : FloatModel) (a b : ScanValue)
    (ha : a.wf) (hb : b.wf) (hty : a.value_type = b.value_type) :
    (a.value_type ≠ .F32 → a.value_type ≠ .F64 →
      (a.compare F b .Exact = true ↔ a.to_bytes = b.to_bytes)) ∧
    (∀ x y, a = .F32 x → b = .F32 y → a.compare F b .Exact = f32BitsEq x y) ∧
    (∀ x y, a = .F64 x → b = .F64 y → a.compare F b .Exact = f64BitsEq x y) := by
  have h8 : (2 : Nat) ^ 8 = 256 ^ 1 := by norm_num
  have h16 : (2 : Nat) ^ 16 = 256 ^ 2 := by norm_num
  have h32 : (2 : Nat) ^ 32 = 256 ^ 4 := by norm_num
  have h64 : (2 : Nat) ^ 64 = 256 ^ 8 := by norm_num
  cases a <;> cases b <;>
    simp_all [ScanValue.value_type, ScanValue.compare, scanValueEq, ScanValue.to_bytes,
      ScanValue.wf, encodeLE_eq_iff]

/-- Witness for `exact_compare_characterization` at the concrete pair
`I32 5`, `I32 7`. -/
theorem exact_compare_characterization_witness :
    (ScanValue.wf (.I32 5)) ∧ (ScanValue.wf (.I32 7)) ∧
    (ScanValue.value_type (.I32 5) = ScanValue.value_type (.I32 7)) ∧
    ((ScanValue.value_type (.I32 5) ≠ .F32 → ScanValue.value_type (.I32 5) ≠ .F64 →
      (ScanValue.compare trivFloatModel (.I32 5) (.I32 7) .Exact = true ↔
        ScanValue.to_bytes (.I32 5) = ScanValue.to_bytes (.I32 7))) ∧
    (∀ x y, ScanValue.I32 5 = .F32 x → ScanValue.I32 7 = .F32 y →
      ScanValue.compare trivFloatModel (.I32 5) (.I32 7) .Exact = f32BitsEq x y) ∧
    (∀ x y, ScanValue.I32 5 = .F64 x → ScanValue.I32 7 = .F64 y →
      ScanValue.compare trivFloatModel (.I32 5) (.I32 7) .Exact = f64BitsEq x y)) := by
  refine ⟨by norm_num [ScanValue.wf], by norm_num [ScanValue.wf], rfl, ?_⟩
  exact exact_compare_characterization trivFloatModel (.I32 5) (.I32 7)
    (by norm_num [ScanValue.wf]) (by norm_num [ScanValue.wf]) rfl

/-- Offsets visited by the scalar loop from `start` are `start + al * k`;
an offset is emitted exactly when it is aligned, has four bytes available,
and its decoded value satisfies the predicate. -/
theorem scanLoop_mem (data : List Nat) (pred : Nat → Bool) (al : Nat) (hal : 1 ≤ al) :
    ∀ fuel start o, data.length + 1 ≤ start + fuel →
      (o ∈ scanLoop data pred al start fuel ↔
        (∃ k, o = start + al * k) ∧ o % al = 0 ∧ o + 4 ≤ data.length ∧
          pred (decode4 data o) = true) := by
  intro fuel
  induction fuel with
  | zero =>
    intro start o hf
    simp only [scanLoop, List.not_mem_nil, false_iff]
    rintro ⟨⟨k, rfl⟩, _, h4, _⟩
    omega
  | succ fuel ih =>
    intro start o hf
    by_cases h4 : start + 4 ≤ data.length
    · simp only [scanLoop, if_pos h4, List.mem_append]
      rw [ih (start + al) o (by omega)]
      constructor
      · rintro (hhead | ⟨⟨k, rfl⟩, hmod, hlen, hpred⟩)
        · by_cases hm : (start % al == 0) = true
          · rw [if_pos hm] at hhead
            by_cases hp : pred (decode4 data start) = true
            · rw [if_pos hp] at hhead
              simp only [List.mem_singleton] at hhead
              subst hhead
              exact ⟨⟨0, by omega⟩, by simpa using hm, h4, hp⟩
            · rw [if_neg hp] at hhead
              simp at hhead
          · rw [if_neg hm] at hhead
            simp at hhead
        · exact ⟨⟨k + 1, by ring⟩, hmod, hlen, hpred⟩
      · rintro ⟨⟨k, hk⟩, hmod, hlen, hpred⟩
        match k with
        | 0 =>
          have he : o = start := by omega
          subst he
          left
          have hm : o % al = 0 := hmod
          simp [hm, hpred]
        | k + 1 =>
          right
          refine ⟨⟨k, by rw [hk]; ring⟩, hmod, hlen, hpred⟩
    · simp only [scanLoop, if_neg h4, List.not_mem_nil, false_iff]
      rintro ⟨⟨k, rfl⟩, _, hlen, _⟩
      omega

/-- Every offset the scalar loop emits is at least its starting offset. -/
theorem scanLoop_mem_le (data : List Nat) (pred : Nat → Bool) (al : Nat) :
    ∀ fuel start o, o ∈ scanLoop data pred al start fuel → start ≤ o := by
  intro fuel
  induction fuel with
  | zero =>
    intro start o h
    simp [scanLoop] at h
  | succ fuel ih =>
    intro start o h
    by_cases h4 : start + 4 ≤ data.length
    · simp only [scanLoop, if_pos h4, List.mem_append] at h
      rcases h with h1 | h2
      · split_ifs at h1 with hm hp
        · simp only [List.mem_singleton] at h1
          omega
        · simp at h1
        · simp at h1
      · have := ih (start + al) o h2
        omega
    · simp only [scanLoop, if_neg h4] at h
      simp at h

/-- The scalar loop emits offsets in strictly ascending order. -/
theorem scanLoop_pairwise (data : List Nat) (pred : Nat → Bool) (al : Nat) (hal : 1 ≤ al) :
    ∀ fuel start, (scanLoop data pred al start fuel).Pairwise (· < ·) := by
  intro fuel
  induction fuel with
  | zero =>
    intro start
    simp [scanLoop]
  | succ fuel ih =>
    intro start
    by_cases h4 : start + 4 ≤ data.length
    · simp only [scanLoop, if_pos h4]
      refine List.pairwise_append.2 ⟨?_, ih (start + al), ?_⟩
      · split_ifs <;> simp
      · intro a ha b hb
        have hb2 := scanLoop_mem_le data pred al fuel (start + al) b hb
        split_ifs at ha with hm hp
        · simp only [List.mem_singleton] at ha
          omega
        · simp at ha
        · simp at ha
    · simp [scanLoop, if_neg h4]

/-- Two strictly ascending lists of naturals with the same members are
equal. -/
theorem sorted_lt_eq_of_mem_iff {l₁ l₂ : List Nat}
    (h₁ : l₁.Pairwise (· < ·)) (h₂ : l₂.Pairwise (· < ·))
    (h : ∀ o, o ∈ l₁ ↔ o ∈ l₂) : l₁ = l₂ := by
  have hn₁ : l₁.Nodup := h₁.imp (fun hlt => Nat.ne_of_lt hlt)
  have hn₂ : l₂.Nodup := h₂.imp (fun hlt => Nat.ne_of_lt hlt)
  haveI : IsAntisymm Nat (· < ·) := ⟨fun a b hab hba => absurd hab (Nat.lt_asymm hba)⟩
  exact List.eq_of_perm_of_sorted ((List.perm_ext_iff_of_nodup hn₁ hn₂).2 h) h₁ h₂

/-- The scalar loop started at offset 0 with full fuel computes exactly the
spec's list of aligned matching offsets, for every alignment at least 1. -/
theorem scalarLoop_eq_spec (data : List Nat) (pred : Nat → Bool) (al : Nat) (hal : 1 ≤ al) :
    scanLoop data pred al 0 (data.length + 1) = alignedMatchOffsets data pred al := by
  refine sorted_lt_eq_of_mem_iff (scanLoop_pairwise data pred al hal _ _)
    ((List.pairwise_lt_range _).filter _) ?_
  intro o
  rw [scanLoop_mem data pred al hal (data.length + 1) 0 o (by omega)]
  simp only [alignedMatchOffsets, List.mem_filter, List.mem_range, Bool.and_eq_true,
    decide_eq_true_eq, beq_iff_eq]
  constructor
  · rintro ⟨⟨k, rfl⟩, hmod, hlen, hpred⟩
    exact ⟨by omega, ⟨hmod, hlen⟩, hpred⟩
  · rintro ⟨ho, ⟨hmod, hlen⟩, hpred⟩
    refine ⟨⟨o / al, ?_⟩, hmod, hlen, hpred⟩
    rw [Nat.zero_add, Nat.mul_comm]
    exact (Nat.div_mul_cancel (Nat.dvd_of_mod_eq_zero hmod)).symm

/-- Membership in one chunk's lane scan: the produced offsets are the lane
offsets `c * 32 + i * 4` whose decoded value matches and which pass the
alignment test. -/
theorem simdLane_mem (data : List Nat) (pred : Nat → Bool) (al c o : Nat) :
    (o ∈ (List.range 8).filterMap (fun i =>
      if pred (decode4 data (c * 32 + i * 4)) then
        if (c * 32 + i * 4) % al == 0 then some (c * 32 + i * 4) else none
      else none)) ↔
    ∃ i < 8, o = c * 32 + i * 4 ∧ pred (decode4 data o) = true ∧ o % al = 0 := by
  rw [List.mem_filterMap]
  constructor
  · rintro ⟨i, hi, hf⟩
    rw [List.mem_range] at hi
    split_ifs at hf with hp hm
    simp only [Option.some.injEq] at hf
    subst hf
    exact ⟨i, hi, rfl, hp, by simpa using hm⟩
  · rintro ⟨i, hi, rfl, hp, hm⟩
    refine ⟨i, List.mem_range.2 hi, ?_⟩
    rw [if_pos hp, if_pos (by simpa using hm)]

/-- Membership in the vectorized part of the AVX2 kernels. -/
theorem simdVectorPart_mem (data : List Nat) (pred : Nat → Bool) (al chunks o : Nat) :
    o ∈ simdVectorPart data pred al chunks ↔
      ∃ c < chunks, ∃ i < 8, o = c * 32 + i * 4 ∧ pred (decode4 data o) = true ∧
        o % al = 0 := by
  simp only [simdVectorPart, List.mem_flatMap, List.mem_range]
  constructor
  · rintro ⟨c, hc, hmem⟩
    rw [simdLane_mem] at hmem
    rcases hmem with ⟨i, hi, rfl, hp, hm⟩
    exact ⟨c, hc, i, hi, rfl, hp, hm⟩
  · rintro ⟨c, hc, i, hi, rfl, hp, hm⟩
    exact ⟨c, hc, (simdLane_mem data pred al c _).2 ⟨i, hi, rfl, hp, hm⟩⟩

/-- Offsets from the vectorized part lie strictly inside the full chunks. -/
theorem simdVectorPart_mem_bound (data : List Nat) (pred : Nat → Bool) (al chunks o : Nat)
    (h : o ∈ simdVectorPart data pred al chunks) : o + 4 ≤ chunks * 32 := by
  rw [simdVectorPart_mem] at h
  rcases h with ⟨c, hc, i, hi, rfl, _, _⟩
  omega

/-- The vectorized part emits offsets in strictly ascending order. -/
theorem simdVectorPart_pairwise (data : List Nat) (pred : Nat → Bool) (al chunks : Nat) :
    (simdVectorPart data pred al chunks).Pairwise (· < ·) := by
  refine List.pairwise_flatMap.2 ⟨?_, ?_⟩
  · intro c hc
    refine List.pairwise_filterMap.2 ?_
    refine (List.pairwise_lt_range 8).imp ?_
    intro i j hij b hb b2 hb2
    split_ifs at hb hb2 <;> simp_all <;> omega
  · refine (List.pairwise_lt_range chunks).imp ?_
    intro c1 c2 hc x hx y hy
    rw [simdLane_mem] at hx hy
    rcases hx with ⟨i, hi, rfl, _, _⟩
    rcases hy with ⟨j, hj, rfl, _, _⟩
    omega

/-- For an alignment that is a multiple of 4 and divides 32, the AVX2
kernel computes exactly the spec's list of aligned matching offsets. -/
theorem simdScan_eq_spec (data : List Nat) (pred : Nat → Bool) (al : Nat)
    (h4 : 4 ∣ al) (h32 : al ∣ 32) :
    simdScan data pred al = alignedMatchOffsets data pred al := by
  have hal : 1 ≤ al := Nat.pos_of_dvd_of_pos h32 (by norm_num)
  unfold simdScan
  by_cases hlen : data.length < 32
  · rw [if_pos hlen]
    exact scalarLoop_eq_spec data pred al hal
  · rw [if_neg hlen]
    have hchunks : data.length / 32 * 32 ≤ data.length := Nat.div_mul_le_self _ _
    refine sorted_lt_eq_of_mem_iff ?_ ((List.pairwise_lt_range _).filter _) ?_
    · refine List.pairwise_append.2
        ⟨simdVectorPart_pairwise data pred al _, scanLoop_pairwise data pred al hal _ _, ?_⟩
      intro a ha b hb
      have h1 := simdVectorPart_mem_bound data pred al _ a ha
      have h2 := scanLoop_mem_le data pred al _ _ b hb
      omega
    · intro o
      rw [List.mem_append, simdVectorPart_mem,
        scanLoop_mem data pred al hal (data.length + 1) _ o (by omega)]
      simp only [alignedMatchOffsets, List.mem_filter, List.mem_range, Bool.and_eq_true,
        decide_eq_true_eq, beq_iff_eq]
      constructor
      · rintro (⟨c, hc, i, hi, rfl, hp, hm⟩ | ⟨⟨k, rfl⟩, hm, hl, hp⟩)
        · refine ⟨by omega, ⟨hm, by omega⟩, hp⟩
        · exact ⟨by omega, ⟨hm, hl⟩, hp⟩
      · rintro ⟨ho, ⟨hm, hl⟩, hp⟩
        by_cases hsplit : o < data.length / 32 * 32
        · left
          have h4o : 4 ∣ o := dvd_trans h4 (Nat.dvd_of_mod_eq_zero hm)
          have h1 : 32 * (o / 32) + o % 32 = o := Nat.div_add_mod o 32
          have h2 : 4 ∣ o % 32 := (Nat.dvd_mod_iff (by norm_num)).2 h4o
          have h3 : 4 * (o % 32 / 4) = o % 32 := Nat.mul_div_cancel' h2
          have h5 : o % 32 < 32 := Nat.mod_lt _ (by norm_num)
          refine ⟨o / 32, (Nat.div_lt_iff_lt_mul (by norm_num)).2 hsplit,
            o % 32 / 4, by omega, by omega, hp, hm⟩
        · right
          have hD32 : al ∣ data.length / 32 * 32 := (h32).mul_left _
          have halo : al ∣ o := Nat.dvd_of_mod_eq_zero hm
          rcases Nat.dvd_sub' halo hD32 with ⟨k, hk⟩
          exact ⟨⟨k, by omega⟩, hm, hl, hp⟩

/-- C4 (counterexample): with alignment 1 the scalar routine finds the
match at (unaligned-to-4) offset 1 of a 32-byte buffer, but the AVX2 path
probes only lane offsets that are multiples of 4 inside full vector chunks
and returns nothing, so the two paths disagree and the dispatched
`scan_i32` misses a required offset. -/
theorem scan_i32_avx2_scalar_disagree :
    scalar_scan_i32 ([0, 42] ++ List.replicate 30 0) 42 1 = [1] ∧
    simd_scan_i32_avx2 ([0, 42] ++ List.replicate 30 0) 42 1 = [] ∧
    scan_i32 true ([0, 42] ++ List.replicate 30 0) 42 1 ≠
      alignedMatchOffsets ([0, 42] ++ List.replicate 30 0) (fun v => v == 42) 1 := by
  decide

/-- C4 (amended): for every buffer and target, the scalar routines return
exactly the aligned matching byte offsets in ascending order for every
alignment of at least 1; and whenever the alignment is a multiple of 4
dividing 32 (in particular the natural alignment 4), the AVX2 kernels
agree with the scalar routines, so the dispatched `scan_i32` / `scan_f32`
satisfy the same contract on both paths. -/
theorem scan_kernels_exact_offsets (data : List Nat) (ti tf al : Nat) (avx2 : Bool)
    (hal : 1 ≤ al) :
    scalar_scan_i32 data ti al = alignedMatchOffsets data (fun v => v == ti) al ∧
    scalar_scan_f32 data tf al = alignedMatchOffsets data (fun v => f32BitsEq v tf) al ∧
    (4 ∣ al → al ∣ 32 →
      simd_scan_i32_avx2 data ti al = scalar_scan_i32 data ti al ∧
      simd_scan_f32_avx2 data tf al = scalar_scan_f32 data tf al ∧
      scan_i32 avx2 data ti al = alignedMatchOffsets data (fun v => v == ti) al ∧
      scan_f32 avx2 data tf al = alignedMatchOffsets data (fun v => f32BitsEq v tf) al) := by
  have hs1 : scalar_scan_i32 data ti al = alignedMatchOffsets data (fun v => v == ti) al :=
    scalarLoop_eq_spec data (fun v => v == ti) al hal
  have hs2 : scalar_scan_f32 data tf al =
      alignedMatchOffsets data (fun v => f32BitsEq v tf) al :=
    scalarLoop_eq_spec data (fun v => f32BitsEq v tf) al hal
  refine ⟨hs1, hs2, ?_⟩
  intro h4 h32
  have hv1 : simd_scan_i32_avx2 data ti al = alignedMatchOffsets data (fun v => v == ti) al :=
    simdScan_eq_spec data (fun v => v == ti) al h4 h32
  have hv2 : simd_scan_f32_avx2 data tf al =
      alignedMatchOffsets data (fun v => f32BitsEq v tf) al :=
    simdScan_eq_spec data (fun v => f32BitsEq v tf) al h4 h32
  refine ⟨hv1.trans hs1.symm, hv2.trans hs2.symm, ?_, ?_⟩
  · cases avx2
    · simpa [scan_i32] using hs1
    · simpa [scan_i32] using hv1
  · cases avx2
    · simpa [scan_f32] using hs2
    · simpa [scan_f32] using hv2

/-- Witness for `scan_kernels_exact_offsets` at the buffer
`[5,0,0,0,7,0,0,0]`, targets 5 (i32) and 0 (f32 bits), alignment 4, with
the AVX2 path selected. -/
theorem scan_kernels_exact_offsets_witness :
    1 ≤ 4 ∧
    scalar_scan_i32 [5, 0, 0, 0, 7, 0, 0, 0] 5 4 =
      alignedMatchOffsets [5, 0, 0, 0, 7, 0, 0, 0] (fun v => v == 5) 4 ∧
    scalar_scan_f32 [5, 0, 0, 0, 7, 0, 0, 0] 0 4 =
      alignedMatchOffsets [5, 0, 0, 0, 7, 0, 0, 0] (fun v => f32BitsEq v 0) 4 ∧
    simd_scan_i32_avx2 [5, 0, 0, 0, 7, 0, 0, 0] 5 4 =
      scalar_scan_i32 [5, 0, 0, 0, 7, 0, 0, 0] 5 4 ∧
    simd_scan_f32_avx2 [5, 0, 0, 0, 7, 0, 0, 0] 0 4 =
      scalar_scan_f32 [5, 0, 0, 0, 7, 0, 0, 0] 0 4 ∧
    scan_i32 true [5, 0, 0, 0, 7, 0, 0, 0] 5 4 =
      alignedMatchOffsets [5, 0, 0, 0, 7, 0, 0, 0] (fun v => v == 5) 4 ∧
    scan_f32 true [5, 0, 0, 0, 7, 0, 0, 0] 0 4 =
      alignedMatchOffsets [5, 0, 0, 0, 7, 0, 0, 0] (fun v => f32BitsEq v 0) 4 := by
  have h := scan_kernels_exact_offsets [5, 0, 0, 0, 7, 0, 0, 0] 5 0 4 true (by decide)
  have h2 := h.2.2 (by decide) (by decide)
  exact ⟨by decide, h.1, h.2.1, h2.1, h2.2.1, h2.2.2.1, h2.2.2.2⟩

/-- A successful all-or-nothing read returns exactly the requested number
of bytes. -/
theorem mapM_option_length {α β : Type} (f : α → Option β) :
    ∀ (l : List α) (res : List β), l.mapM f = some res → res.length = l.length := by
  intro l
  induction l with
  | nil =>
    intro res h
    simp only [List.mapM_nil, Option.pure_def, Option.some.injEq] at h
    simp [← h]
  | cons x xs ih =>
    intro res h
    simp only [List.mapM_cons, Option.pure_def, Option.bind_eq_bind, Option.bind_eq_some,
      Option.some.injEq] at h
    rcases h with ⟨b, hb, rest, hrest, hres⟩
    simp [← hres, ih rest hrest]

/-- Length of a successful `readMem`. -/
theorem readMem_length {μ : Mem} {addr n : Nat} {bs : List Nat}
    (h : readMem μ addr n = some bs) : bs.length = n := by
  have := mapM_option_length (fun i => μ (addr + i)) (List.range n) bs h
  simpa using this

/-- On a slice whose length equals the type's byte size, `from_bytes`
succeeds and returns the decoded value. -/
theorem from_bytes_of_length (bytes : List Nat) (vt : ValueType)
    (h : bytes.length = vt.size) :
    ScanValue.from_bytes bytes vt = .ok (some (decodeValue bytes vt)) := by
  cases vt <;> simp only [ValueType.size] at h <;>
    simp [ScanValue.from_bytes, decodeValue, h]
  · cases bytes with
    | nil => simp at h
    | cons b bs =>
      simp only [List.length_cons] at h
      have : bs = [] := List.length_eq_zero.1 (by omega)
      subst this
      simp [decodeLE]
  · cases bytes with
    | nil => simp at h
    | cons b bs =>
      simp only [List.length_cons] at h
      have : bs = [] := List.length_eq_zero.1 (by omega)
      subst this
      simp [decodeLE]

/-- When the stored current bytes have the type's size, `rescan_address`
cannot panic or lose a candidate to a parse failure: it computes exactly
the spec-side `survivorStep`. -/
theorem rescan_address_eq_survivorStep (μ : Mem) (F : FloatModel) (r : ScanResult)
    (value : ScanValue) (scan_type : ScanType) (vt : ValueType)
    (h : r.get_current_value.length = vt.size) :
    rescan_address μ F r value scan_type vt = .ok (survivorStep μ F vt value scan_type r) := by
  unfold rescan_address survivorStep
  cases hread : readMem μ r.address vt.size with
  | none => rfl
  | some bs =>
    have hbs : bs.length = vt.size := readMem_length hread
    simp only [from_bytes_of_length bs vt hbs, from_bytes_of_length r.get_current_value vt h]
    split_ifs
    · rfl
    · rfl

/-- A surviving candidate keeps its address, its previous bytes are the
bytes that were current before the scan, and its current bytes are the
freshly read bytes. -/
theorem survivorStep_some_fields (μ : Mem) (F : FloatModel) (vt : ValueType)
    (value : ScanValue) (scan_type : ScanType) (r r2 : ScanResult)
    (h : survivorStep μ F vt value scan_type r = some r2) :
    r2.address = r.address ∧ r2.previous_value = r.get_current_value ∧
    r2.current_value = readMem μ r.address vt.size := by
  unfold survivorStep at h
  cases hread : readMem μ r.address vt.size with
  | none => rw [hread] at h; simp at h
  | some bs =>
    rw [hread] at h
    dsimp only at h
    split_ifs at h
    simp only [Option.some.injEq] at h
    subst h
    exact ⟨rfl, rfl, rfl⟩

/-- A candidate survives exactly when the fresh read succeeds and the
fresh value passes the predicate against the reference (or stored)
value. -/
theorem survivorStep_isSome_iff (μ : Mem) (F : FloatModel) (vt : ValueType)
    (value : ScanValue) (scan_type : ScanType) (r : ScanResult) :
    (survivorStep μ F vt value scan_type r).isSome = true ↔
      ∃ bs, readMem μ r.address vt.size = some bs ∧
        nextScanPred F value (decodeValue bs vt) (decodeValue r.get_current_value vt)
          scan_type = true := by
  unfold survivorStep
  cases hread : readMem μ r.address vt.size with
  | none => simp
  | some bs =>
    dsimp only
    split_ifs with hc
    · simp [hread, hc]
    · simp [hread, hc]

/-- Running `presFilterMap` over panic-free steps is `List.filterMap`. -/
theorem presFilterMap_eq_filterMap {α β : Type} (f : α → PRes (Option β))
    (g : α → Option β) :
    ∀ l : List α, (∀ x ∈ l, f x = .ok (g x)) →
      presFilterMap f l = .ok (l.filterMap g) := by
  intro l
  induction l with
  | nil => intro _; rfl
  | cons x xs ih =>
    intro h
    have hx := h x (List.mem_cons_self x xs)
    have hxs := ih (fun y hy => h y (List.mem_cons_of_mem x hy))
    simp only [presFilterMap, hx, hxs, List.filterMap_cons]
    cases g x <;> rfl

/-- Mapping addresses over a step that preserves addresses yields a
sublist (an order-preserving selection) of the original addresses. -/
theorem filterMap_map_addr_sublist (g : ScanResult → Option ScanResult)
    (h : ∀ r r2, g r = some r2 → r2.address = r.address) :
    ∀ l : List ScanResult,
      ((l.filterMap g).map ScanResult.address).Sublist (l.map ScanResult.address) := by
  intro l
  induction l with
  | nil => simp
  | cons x xs ih =>
    cases hx : g x with
    | none =>
      simp only [List.filterMap_cons, hx, List.map_cons]
      exact ih.cons _
    | some r2 =>
      simp only [List.filterMap_cons, hx, List.map_cons]
      rw [h x r2 hx]
      exact ih.cons₂ _

/-- C7 (confirmed): under the data-model invariant that every stored
current-value slice has the type's size, `next_scan` neither panics nor
drops a candidate to a parse failure: it replaces the result list by the
in-order `filterMap` of `survivorStep` (so the survivors' addresses form a
subsequence of the previous addresses); a candidate is removed exactly
when the fresh read fails or the fresh value fails the predicate, and a
survivor keeps its address, takes the old current bytes as its previous
bytes, and stores the freshly read bytes as current. -/
theorem next_scan_filters_in_order (μ : Mem) (F : FloatModel) (st : ScanResults)
    (value : ScanValue) (scan_type : ScanType)
    (hlen : ∀ r ∈ st.results, r.get_current_value.length = st.value_type.size) :
    Scanner.next_scan μ F st value scan_type =
      .ok ({ results := st.results.filterMap (survivorStep μ F st.value_type value scan_type),
             value_type := st.value_type,
             scan_count := if st.results.isEmpty then st.scan_count
               else st.scan_count + 1 },
        (st.results.filterMap (survivorStep μ F st.value_type value scan_type)).length) ∧
    ((st.results.filterMap (survivorStep μ F st.value_type value scan_type)).map
      ScanResult.address).Sublist (st.results.map ScanResult.address) ∧
    (∀ r r2, survivorStep μ F st.value_type value scan_type r = some r2 →
      r2.address = r.address ∧ r2.previous_value = r.get_current_value ∧
      r2.current_value = readMem μ r.address st.value_type.size) ∧
    (∀ r, (survivorStep μ F st.value_type value scan_type r).isSome = true ↔
      ∃ bs, readMem μ r.address st.value_type.size = some bs ∧
        nextScanPred F value (decodeValue bs st.value_type)
          (decodeValue r.get_current_value st.value_type) scan_type = true) := by
  refine ⟨?_,
    filterMap_map_addr_sublist _
      (fun r r2 h => (survivorStep_some_fields μ F st.value_type value scan_type r r2 h).1) _,
    fun r r2 h => survivorStep_some_fields μ F st.value_type value scan_type r r2 h,
    fun r => survivorStep_isSome_iff μ F st.value_type value scan_type r⟩
  obtain ⟨res, vt, sc⟩ := st
  simp only at hlen
  unfold Scanner.next_scan
  by_cases he : res.isEmpty
  · have hnil : res = [] := by simpa using he
    subst hnil
    simp
  · have hstep : ∀ r ∈ res,
        rescan_address μ F r value scan_type vt = .ok (survivorStep μ F vt value scan_type r) :=
      fun r hr => rescan_address_eq_survivorStep μ F r value scan_type vt (hlen r hr)
    simp only [he, Bool.false_eq_true, if_neg,
      presFilterMap_eq_filterMap _ (survivorStep μ F vt value scan_type) res hstep]
    simp [ScanResults.increment_scan_count, he]

/-- Witness for `next_scan_filters_in_order`: one stored candidate of the
right width whose address has become unreadable is dropped, and the scan
counter advances. -/
theorem next_scan_filters_in_order_witness :
    (∀ r ∈ (⟨[⟨0, [1, 2, 3, 4], some [1, 2, 3, 4]⟩], ValueType.I32, 3⟩ :
        ScanResults).results,
      r.get_current_value.length = ValueType.size ValueType.I32) ∧
    Scanner.next_scan (fun _ => none) trivFloatModel
      (⟨[⟨0, [1, 2, 3, 4], some [1, 2, 3, 4]⟩], ValueType.I32, 3⟩ : ScanResults)
      (.I32 0) .Exact =
      .ok (⟨[], ValueType.I32, 4⟩, 0) := by
  refine ⟨by decide, ?_⟩
  have h := next_scan_filters_in_order (fun _ => none) trivFloatModel
    (⟨[⟨0, [1, 2, 3, 4], some [1, 2, 3, 4]⟩], ValueType.I32, 3⟩ : ScanResults)
    (.I32 0) .Exact (by decide)
  rw [h.1]
  decide

/-- C8 (counterexample): a `next_scan` on an empty result set returns
early and leaves the counter at 5 rather than incrementing it to 6, and a
`first_scan` from a state with counter 5 discards the old set and ends
with counter 1 rather than 6. -/
theorem scan_count_not_always_incremented :
    Scanner.next_scan (fun _ => none) trivFloatModel
      (⟨[], ValueType.I32, 5⟩ : ScanResults) (.I32 0) .Exact =
      .ok (⟨[], ValueType.I32, 5⟩, 0) ∧
    Scanner.first_scan (fun _ => none) trivFloatModel
      (⟨[], ValueType.I32, 5⟩ : ScanResults) (.I32 0) .Exact
      (⟨ValueType.I32, 4, false, true, false⟩ : ScanOptions) [] =
      .ok (⟨[], ValueType.I32, 1⟩, 0) ∧
    (5 : Nat) + 1 ≠ 5 ∧ (5 : Nat) + 1 ≠ 1 := by
  exact ⟨rfl, rfl, by decide, by decide⟩

/-- C8 (amended): the counter is 0 after `reset`; a `first_scan` always
ends with the counter equal to 1 (the previous set and counter are
discarded first); a `next_scan` on a non-empty result set increments the
counter by exactly 1; a `next_scan` on an empty result set returns 0
immediately and leaves the state (counter included) unchanged. -/
theorem scan_count_lifecycle (μ : Mem) (F : FloatModel) (st : ScanResults)
    (value : ScanValue) (scan_type : ScanType) (options : ScanOptions)
    (regions : List MemoryRegion) :
    (Scanner.reset st).scan_count = 0 ∧
    (∀ st2 n, Scanner.first_scan μ F st value scan_type options regions = .ok (st2, n) →
      st2.scan_count = 1) ∧
    (st.results ≠ [] →
      ∀ st2 n, Scanner.next_scan μ F st value scan_type = .ok (st2, n) →
        st2.scan_count = st.scan_count + 1) ∧
    (st.results = [] → Scanner.next_scan μ F st value scan_type = .ok (st, 0)) := by
  refine ⟨rfl, ?_, ?_, ?_⟩
  · intro st2 n h
    unfold Scanner.first_scan at h
    cases hm : presAppendMap
        (fun region => scan_region_first μ F region value scan_type options)
        (filter_regions regions options.readable_only options.writable_only
          options.executable_only) with
    | panicked => rw [hm] at h; simp at h
    | ok l =>
      rw [hm] at h
      dsimp only at h
      simp only [PRes.ok.injEq, Prod.mk.injEq] at h
      rw [← h.1]
      rfl
  · intro hne st2 n h
    unfold Scanner.next_scan at h
    rw [if_neg (by simpa using hne)] at h
    cases hm : presFilterMap
        (fun r => rescan_address μ F r value scan_type st.value_type) st.results with
    | panicked => rw [hm] at h; simp at h
    | ok filtered =>
      rw [hm] at h
      dsimp only at h
      simp only [PRes.ok.injEq, Prod.mk.injEq] at h
      rw [← h.1]
      rfl
  · intro hnil
    unfold Scanner.next_scan
    rw [if_pos (by simp [hnil])]

/-- Witness for `scan_count_lifecycle` at a concrete empty scanner state
with counter 7, no readable memory and no regions. -/
theorem scan_count_lifecycle_witness :
    (Scanner.reset (⟨[], ValueType.I32, 7⟩ : ScanResults)).scan_count = 0 ∧
    ScanResults.scan_count (⟨[], ValueType.I32, 1⟩ : ScanResults) = 1 ∧
    Scanner.next_scan (fun _ => none) trivFloatModel
      (⟨[], ValueType.I32, 7⟩ : ScanResults) (.I32 0) .Exact =
      .ok (⟨[], ValueType.I32, 7⟩, 0) := by
  have h := scan_count_lifecycle (fun _ => none) trivFloatModel
    (⟨[], ValueType.I32, 7⟩ : ScanResults) (.I32 0) .Exact
    (⟨ValueType.I32, 4, false, true, false⟩ : ScanOptions) []
  exact ⟨h.1, h.2.1 (⟨[], ValueType.I32, 1⟩ : ScanResults) 0 (by decide), h.2.2.2 rfl⟩

/-- Every candidate recorded by the first-scan region loop sits at
`base + start + alignment * k` for some stride count `k`, and its absolute
address passed the alignment test. -/
theorem scanRegionLoop_sound (F : FloatModel) (base : Nat) (data : List Nat)
    (value : ScanValue) (scan_type : ScanType) (al : Nat) (vt : ValueType) :
    ∀ fuel start out,
      scanRegionLoop F base data value scan_type al vt start fuel = .ok out →
      ∀ r ∈ out, (∃ k, r.address = base + start + al * k) ∧ r.address % al = 0 := by
  intro fuel
  induction fuel with
  | zero =>
    intro start out h r hr
    simp only [scanRegionLoop, PRes.ok.injEq] at h
    subst h
    simp at hr
  | succ fuel ih =>
    intro start out h r hr
    rw [scanRegionLoop] at h
    by_cases h1 : start + vt.size ≤ data.length
    · rw [if_pos h1] at h
      by_cases h2 : ((base + start) % al == 0) = true
      · rw [if_pos h2] at h
        cases hfb : ScanValue.from_bytes ((data.drop start).take vt.size) vt with
        | panicked => rw [hfb] at h; simp at h
        | ok o =>
          rw [hfb] at h
          cases o with
          | none =>
            dsimp only at h
            obtain ⟨⟨k, hk⟩, hmod⟩ := ih (start + al) out h r hr
            exact ⟨⟨k + 1, by rw [Nat.mul_add, Nat.mul_one]; omega⟩, hmod⟩
          | some fv =>
            dsimp only at h
            cases hrec : scanRegionLoop F base data value scan_type al vt (start + al)
                fuel with
            | panicked => rw [hrec] at h; simp at h
            | ok rest =>
              rw [hrec] at h
              dsimp only at h
              simp only [PRes.ok.injEq] at h
              subst h
              rcases List.mem_append.1 hr with hh | ht
              · split_ifs at hh with hcond
                · simp only [List.mem_singleton] at hh
                  subst hh
                  refine ⟨⟨0, by simp [ScanResult.new]⟩, ?_⟩
                  simpa [ScanResult.new] using h2
                · simp at hh
              · obtain ⟨⟨k, hk⟩, hmod⟩ := ih (start + al) rest hrec r ht
                exact ⟨⟨k + 1, by rw [Nat.mul_add, Nat.mul_one]; omega⟩, hmod⟩
      · rw [if_neg h2] at h
        obtain ⟨⟨k, hk⟩, hmod⟩ := ih (start + al) out h r hr
        exact ⟨⟨k + 1, by rw [Nat.mul_add, Nat.mul_one]; omega⟩, hmod⟩
    · rw [if_neg h1] at h
      simp only [PRes.ok.injEq] at h
      subst h
      simp at hr

/-- C9 (confirmed): every result `scan_region_first` records lies at
`base + alignment * k` and has an absolutely aligned address; hence a
region whose base address is not a multiple of the requested alignment
contributes no results at all, whatever its contents. -/
theorem scan_region_first_alignment (μ : Mem) (F : FloatModel) (region : MemoryRegion)
    (value : ScanValue) (scan_type : ScanType) (options : ScanOptions)
    (out : List ScanResult)
    (h : scan_region_first μ F region value scan_type options = .ok out) :
    (∀ r ∈ out, (∃ k, r.address = region.base_address + options.alignment * k) ∧
      r.address % options.alignment = 0) ∧
    (region.base_address % options.alignment ≠ 0 → out = []) := by
  unfold scan_region_first at h
  cases hrr : read_region μ region with
  | none =>
    rw [hrr] at h
    dsimp only at h
    simp only [PRes.ok.injEq] at h
    subst h
    exact ⟨by simp, fun _ => rfl⟩
  | some data =>
    rw [hrr] at h
    dsimp only at h
    have hs := scanRegionLoop_sound F region.base_address data value scan_type
      options.alignment options.value_type (data.length + 1) 0 out h
    constructor
    · intro r hr
      obtain ⟨⟨k, hk⟩, hmod⟩ := hs r hr
      exact ⟨⟨k, by omega⟩, hmod⟩
    · intro hbase
      by_contra hne
      obtain ⟨r, hr⟩ := List.exists_mem_of_ne_nil out hne
      obtain ⟨⟨k, hk⟩, hmod⟩ := hs r hr
      simp only [Nat.add_zero] at hk
      rw [hk, Nat.add_mul_mod_self_left] at hmod
      exact hbase hmod

/-- Witness for `scan_region_first_alignment`: a readable committed region
based at address 2 scanned with alignment 4 yields no results even though
its bytes are readable. -/
theorem scan_region_first_alignment_witness :
    scan_region_first (fun a => if a < 16 then some 1 else none) trivFloatModel
      (⟨2, 8, 4, 4096, true, true, false⟩ : MemoryRegion) (.I32 0) .Unknown
      (⟨ValueType.I32, 4, false, true, false⟩ : ScanOptions) = .ok [] ∧
    ((∀ r ∈ ([] : List ScanResult),
      (∃ k, r.address = 2 + 4 * k) ∧ r.address % 4 = 0) ∧
    ((2 : Nat) % 4 ≠ 0 → ([] : List ScanResult) = [])) := by
  refine ⟨by decide, ?_⟩
  exact scan_region_first_alignment (fun a => if a < 16 then some 1 else none)
    trivFloatModel (⟨2, 8, 4, 4096, true, true, false⟩ : MemoryRegion) (.I32 0) .Unknown
    (⟨ValueType.I32, 4, false, true, false⟩ : ScanOptions) [] (by decide)

/-- C10 (confirmed): the facade's `read_field` always requests exactly 4
bytes at instance address + field offset and decodes them as a
little-endian `I32`, whatever the actual field's type is (the field
handle is used as a raw offset and the type is hard-coded); a failed read
surfaces as a platform error. -/
theorem read_field_reads_four_bytes_as_i32 (e : UnrealEngine) (μ : Mem)
    (inst : InstanceHandle) (field : FieldHandle) :
    e.read_field μ inst field =
      match readMem μ (inst.val + field.val) 4 with
      | some data => .ok (Value.I32 (decodeLE (data.take 4)))
      | none => .error .platformError := by
  unfold UnrealEngine.read_field UnrealEngine.read_field_impl
  dsimp only [TypeInfo.kind, PrimitiveType.size]
  cases h : readMem μ (inst.val + field.val) 4 with
  | none => rfl
  | some data => rfl

/-- C2 (counterexample): `get_instances` on a never-initialized engine
returns an empty list successfully instead of the not-initialized
error. -/
theorem uninitialized_get_instances_succeeds :
    UnrealEngine.get_instances
      (⟨0, 0, 0, 0, 0, 0, 0, 0, 0, .Unknown, false⟩ : UnrealEngine) ⟨0⟩ = .ok [] ∧
    (Except.ok ([] : List InstanceHandle) :
      Except EngineError (List InstanceHandle)) ≠ .error .notInitialized ∧
    (⟨0, 0, 0, 0, 0, 0, 0, 0, 0, .Unknown, false⟩ : UnrealEngine).initialized = false := by
  refine ⟨rfl, by simp, rfl⟩

/-- C2 (amended): on an engine on which initialize has not succeeded,
only `find_class` and `invoke` perform the initialization check and
return the not-initialized error; `get_instances` succeeds with an empty
list and `get_instance_class` fails with unsupported-operation; every
other facade operation delegates directly to its implementation with no
initialization check (shown as exact delegation equations). -/
theorem facade_initialization_guards (e : UnrealEngine) (h : e.initialized = false) :
    (∀ impl name, UnrealEngine.find_class impl e name = .error .notInitialized) ∧
    (∀ impl obj method args,
      UnrealEngine.invoke impl e obj method args = .error .notInitialized) ∧
    (∀ class_h, UnrealEngine.get_instances e class_h = .ok []) ∧
    (∀ inst, UnrealEngine.get_instance_class e inst = .error .unsupportedOperation) ∧
    (∀ impl class_h, UnrealEngine.get_class_info impl e class_h = impl class_h.val) ∧
    (∀ impl, UnrealEngine.enumerate_classes impl e = impl ()) ∧
    (∀ impl class_h name, UnrealEngine.find_method impl e class_h name =
      (impl class_h.val name).map MethodHandle.mk) ∧
    (∀ impl method, UnrealEngine.get_method_info impl e method = impl method.val) ∧
    (∀ impl class_h, UnrealEngine.enumerate_methods impl e class_h = impl class_h.val) ∧
    (∀ impl class_h name, UnrealEngine.find_field impl e class_h name =
      (impl class_h.val name).map FieldHandle.mk) ∧
    (∀ impl field, UnrealEngine.get_field_info impl e field = impl field.val) ∧
    (∀ impl class_h, UnrealEngine.enumerate_fields impl e class_h = impl class_h.val) ∧
    (∀ μ inst field, UnrealEngine.read_field e μ inst field =
      UnrealEngine.read_field_impl e μ inst.val field.val
        (TypeInfo.mk ("unknown") 4 (.Primitive .I32))) ∧
    (∀ impl inst field value,
      UnrealEngine.write_field impl e inst field value = impl inst.val field.val value) := by
  refine ⟨?_, ?_, fun _ => rfl, fun _ => rfl, fun _ _ => rfl, fun _ => rfl,
    fun _ _ _ => rfl, fun _ _ => rfl, fun _ _ => rfl, fun _ _ _ => rfl, fun _ _ => rfl,
    fun _ _ => rfl, fun _ _ _ => rfl, fun _ _ _ _ => rfl⟩
  · intro impl name
    simp [UnrealEngine.find_class, h]
  · intro impl obj method args
    simp [UnrealEngine.invoke, h]

/-- Witness for `facade_initialization_guards` on a concrete
never-initialized engine. -/
theorem facade_initialization_guards_witness :
    (⟨0, 0, 0, 0, 0, 0, 0, 0, 0, .Unknown, false⟩ : UnrealEngine).initialized = false ∧
    (∀ impl name, UnrealEngine.find_class impl
      (⟨0, 0, 0, 0, 0, 0, 0, 0, 0, .Unknown, false⟩ : UnrealEngine) name =
        .error .notInitialized) ∧
    (∀ impl obj method args, UnrealEngine.invoke impl
      (⟨0, 0, 0, 0, 0, 0, 0, 0, 0, .Unknown, false⟩ : UnrealEngine) obj method args =
        .error .notInitialized) ∧
    (∀ class_h, UnrealEngine.get_instances
      (⟨0, 0, 0, 0, 0, 0, 0, 0, 0, .Unknown, false⟩ : UnrealEngine) class_h = .ok []) := by
  have hg := facade_initialization_guards
    (⟨0, 0, 0, 0, 0, 0, 0, 0, 0, .Unknown, false⟩ : UnrealEngine) rfl
  exact ⟨rfl, hg.1, hg.2.1, hg.2.2.1⟩

/-- C3 (counterexample): when the shellcode write fails, `invoke` returns
its error with both remote allocations (parameter buffer at 1, shellcode
buffer at 2) still held — nothing is released on that path. -/
theorem invoke_write_failure_leaks :
    UnrealEngine.invoke_method_impl
      (⟨0, 0, 0, 0, 0, 0, 0, 0, 0, .Unknown, true⟩ : UnrealEngine)
      (⟨some 1, some 2, false, true⟩ : InvokeEnv) 0 0 [] =
      (.error .platformError, [1, 2], []) ∧
    (1 : Nat) ∈ [1, 2] ∧ (1 : Nat) ∉ ([] : List Nat) := by
  refine ⟨rfl, by decide, by decide⟩

/-- C3 (amended): on every path except a shellcode-write failure — i.e.
when either allocation fails, when the remote thread cannot be created,
and on success — every remote allocation made by the `invoke` call is
released before it returns; the shellcode-write failure path alone
returns with both allocations unreleased. -/
theorem invoke_releases_allocations (e : UnrealEngine) (env : InvokeEnv)
    (instance_addr method_addr : Nat) (args : List Value)
    (h : env.write_ok = true ∨ env.params_alloc = none ∨ env.shellcode_alloc = none) :
    ∀ a ∈ (e.invoke_method_impl env instance_addr method_addr args).2.1,
      a ∈ (e.invoke_method_impl env instance_addr method_addr args).2.2 := by
  unfold UnrealEngine.invoke_method_impl UnrealEngine.generate_process_event_shellcode
  cases hp : env.params_alloc with
  | none => simp
  | some params_addr =>
    cases hs : env.shellcode_alloc with
    | none => simp
    | some shellcode_addr =>
      have hw : env.write_ok = true := by
        rcases h with h | h | h
        · exact h
        · rw [hp] at h; cases h
        · rw [hs] at h; cases h
      rw [hw]
      cases env.thread_ok <;> simp

/-- Witness for `invoke_releases_allocations` on the success path with
both allocations made. -/
theorem invoke_releases_allocations_witness :
    ((⟨some 1, some 2, true, true⟩ : InvokeEnv).write_ok = true ∨
      (⟨some 1, some 2, true, true⟩ : InvokeEnv).params_alloc = none ∨
      (⟨some 1, some 2, true, true⟩ : InvokeEnv).shellcode_alloc = none) ∧
    (∀ a ∈ (UnrealEngine.invoke_method_impl
        (⟨0, 0, 0, 0, 0, 0, 0, 0, 0, .Unknown, true⟩ : UnrealEngine)
        (⟨some 1, some 2, true, true⟩ : InvokeEnv) 0 0 []).2.1,
      a ∈ (UnrealEngine.invoke_method_impl
        (⟨0, 0, 0, 0, 0, 0, 0, 0, 0, .Unknown, true⟩ : UnrealEngine)
        (⟨some 1, some 2, true, true⟩ : InvokeEnv) 0 0 []).2.2) := by
  refine ⟨Or.inl rfl, ?_⟩
  exact invoke_releases_allocations
    (⟨0, 0, 0, 0, 0, 0, 0, 0, 0, .Unknown, true⟩ : UnrealEngine)
    (⟨some 1, some 2, true, true⟩ : InvokeEnv) 0 0 [] (Or.inl rfl)

/-- Indexing into a dropped list with default. -/
theorem getD_drop (l : List Nat) (i j d : Nat) :
    (l.drop i).getD j d = l.getD (i + j) d := by
  simp [List.getD_eq_getElem?_getD, List.getElem?_drop]

/-- The function `filterMap` only depends on the function's values on the list. -/
theorem filterMap_congr_mem {α β : Type} (f g : α → Option β) :
    ∀ l : List α, (∀ a ∈ l, f a = g a) → l.filterMap f = l.filterMap g := by
  intro l
  induction l with
  | nil => intro _; rfl
  | cons x xs ih =>
    intro h
    simp only [List.filterMap_cons, h x (List.mem_cons_self x xs),
      ih (fun a ha => h a (List.mem_cons_of_mem x ha))]

/-- The test `Pattern::matches` succeeds exactly when enough bytes remain and every
non-wildcard position holds the pattern byte. -/
theorem pattern_matches_iff (p : Pattern) (data : List Nat) :
    p.matches data = true ↔
      (p.bytes.length ≤ data.length ∧
        ∀ j < p.bytes.length, p.mask.getD j false = true →
          data.getD j 0 = p.bytes.getD j 0) := by
  unfold Pattern.matches
  split_ifs with hlen
  · simp only [Bool.false_eq_true, false_iff]
    rintro ⟨h1, _⟩
    omega
  · rw [List.all_eq_true]
    constructor
    · intro hall
      refine ⟨by omega, fun j hj hmask => ?_⟩
      have h2 := hall j (List.mem_range.2 hj)
      rw [Bool.not_eq_true', Bool.and_eq_false_iff] at h2
      rcases h2 with h2 | h2
      · rw [hmask] at h2
        cases h2
      · rw [Bool.not_eq_false'] at h2
        exact eq_of_beq h2
    · rintro ⟨hle, hmatch⟩ i hi
      rw [List.mem_range] at hi
      rw [Bool.not_eq_true', Bool.and_eq_false_iff]
      by_cases hmask : p.mask.getD i false = true
      · refine Or.inr ?_
        rw [Bool.not_eq_false']
        exact beq_of_eq (hmatch i hi hmask)
      · rw [Bool.not_eq_true] at hmask
        exact Or.inl hmask

/-- C5 (counterexample): a one-byte pattern fully matches the single byte
of a committed readable one-byte region — a match whose last byte is the
region's last byte — yet `scan_pattern` returns nothing, because the
offset loop runs over `0 .. len - L` exclusive. -/
theorem scan_pattern_misses_terminal_match :
    Pattern.matches (⟨[72], [true]⟩ : Pattern) [72] = true ∧
    scan_pattern (fun a => if a = 0 then some 72 else none)
      [(⟨0, 1, 2, MEM_COMMIT, true, false, false⟩ : MemoryRegion)]
      (⟨[72], [true]⟩ : Pattern) 0 4096 = [] := by
  refine ⟨by decide, by decide⟩

/-- C5 (amended): over a committed readable in-module region whose bytes
read as `data`, `scan_pattern` returns exactly — and in ascending address
order — the addresses `base + i` for the offsets `i < len - L` (so a match
whose last byte is the last byte of the region is excluded) at which
every non-wildcard pattern byte matches; conversely every returned hit
carries its in-region offset, lies strictly before the region's last
byte, and satisfies the mask-constrained match. -/
theorem scan_pattern_region_exact (μ : Mem) (region : MemoryRegion) (p : Pattern)
    (module_base module_size : Nat) (data : List Nat)
    (hin1 : module_base ≤ region.base_address)
    (hin2 : region.base_address < module_base + module_size)
    (hst : region.state = MEM_COMMIT)
    (hrd : region.is_readable = true)
    (hdata : readMem μ region.base_address region.size = some data) :
    scan_pattern μ [region] p module_base module_size =
      (List.range (data.length - p.len)).filterMap (fun i =>
        if ∀ j < p.bytes.length, p.mask.getD j false = true →
            data.getD (i + j) 0 = p.bytes.getD j 0 then
          some (⟨region.base_address + i, i⟩ : PatternScanResult)
        else none) ∧
    ((scan_pattern μ [region] p module_base module_size).map
      (fun hit => hit.address)).Pairwise (· < ·) ∧
    (∀ hit ∈ scan_pattern μ [region] p module_base module_size,
      hit.address = region.base_address + hit.offset ∧
      hit.offset + p.len < data.length ∧
      ∀ j < p.bytes.length, p.mask.getD j false = true →
        data.getD (hit.offset + j) 0 = p.bytes.getD j 0) := by
  have hguard : ¬(region.base_address < module_base ∨
      module_base + module_size ≤ region.base_address ∨
      region.state ≠ MEM_COMMIT ∨ region.is_readable = false) := by
    push_neg
    exact ⟨by omega, by omega, hst, by simp [hrd]⟩
  have h1 : scan_pattern μ [region] p module_base module_size =
      (List.range (data.length - p.len)).filterMap (fun i =>
        if ∀ j < p.bytes.length, p.mask.getD j false = true →
            data.getD (i + j) 0 = p.bytes.getD j 0 then
          some (⟨region.base_address + i, i⟩ : PatternScanResult)
        else none) := by
    have hb : scan_pattern μ [region] p module_base module_size =
        (List.range (data.length - p.len)).filterMap (fun i =>
          if p.matches (data.drop i) then
            some (⟨region.base_address + i, i⟩ : PatternScanResult)
          else none) := by
      simp only [scan_pattern, List.flatMap_cons, List.flatMap_nil, List.append_nil,
        if_neg hguard, hdata]
    rw [hb]
    apply filterMap_congr_mem
    intro i hi
    rw [List.mem_range] at hi
    by_cases hc : ∀ j < p.bytes.length, p.mask.getD j false = true →
        data.getD (i + j) 0 = p.bytes.getD j 0
    · rw [if_pos hc, if_pos]
      rw [pattern_matches_iff]
      refine ⟨by simp [Pattern.len] at hi ⊢; omega, fun j hj hmask => ?_⟩
      rw [getD_drop]
      exact hc j hj hmask
    · rw [if_neg hc, if_neg]
      rw [pattern_matches_iff]
      rintro ⟨hle, hmm⟩
      exact hc (fun j hj hmask => by rw [← getD_drop]; exact hmm j hj hmask)
  refine ⟨h1, ?_, ?_⟩
  · rw [h1, List.map_filterMap]
    refine List.pairwise_filterMap.2 ?_
    refine (List.pairwise_lt_range _).imp ?_
    intro i j hij b hb b2 hb2
    split_ifs at hb hb2 <;> simp_all <;> omega
  · intro hit hmem
    rw [h1] at hmem
    rw [List.mem_filterMap] at hmem
    obtain ⟨i, hi, hf⟩ := hmem
    rw [List.mem_range] at hi
    split_ifs at hf with hc
    simp only [Option.some.injEq] at hf
    subst hf
    refine ⟨rfl, by simp [Pattern.len] at hi ⊢; omega, hc⟩

/-- Witness for `scan_pattern_region_exact`: a three-byte region holding
`[72, 5, 72]` scanned for the one-byte pattern `48` yields exactly the hit
at offset 0 — the matching final byte is excluded by the loop bound. -/
theorem scan_pattern_region_exact_witness :
    readMem (fun a => if a = 0 then some 72 else if a = 1 then some 5 else
        if a = 2 then some 72 else none) 0 3 = some [72, 5, 72] ∧
    scan_pattern (fun a => if a = 0 then some 72 else if a = 1 then some 5 else
        if a = 2 then some 72 else none)
      [(⟨0, 3, 2, MEM_COMMIT, true, false, false⟩ : MemoryRegion)]
      (⟨[72], [true]⟩ : Pattern) 0 4096 =
      [(⟨0, 0⟩ : PatternScanResult)] := by
  refine ⟨by decide, ?_⟩
  have h := scan_pattern_region_exact
    (fun a => if a = 0 then some 72 else if a = 1 then some 5 else
      if a = 2 then some 72 else none)
    (⟨0, 3, 2, MEM_COMMIT, true, false, false⟩ : MemoryRegion)
    (⟨[72], [true]⟩ : Pattern) 0 4096 [72, 5, 72]
    (by decide) (by decide) rfl rfl (by decide)
  rw [h.1]
  decide
